import Mathlib

/-!
Shallow embedding of `yagni`'s validated scalar types
(`src/yagni/pydantic/types.py`, pydantic v1 semantics).

Strings are modelled as `List Char`; the pydantic v1 `ConstrainedStr`
validator pipeline (`str` check, strip, upper, lower, length check, regex
check, then subclass-appended validators) is modelled as an explicit
function over a configuration record mirroring the class attributes.
-/

namespace Yagni

/-! ## Character and string helpers (Python `str` methods, ASCII range) -/

/-- Python `str.lower` on one character, ASCII range (the repository's
canonical values and identifiers are ASCII). -/
def pyToLower (c : Char) : Char :=
  if 65 ≤ c.toNat && c.toNat ≤ 90 then Char.ofNat (c.toNat + 32) else c

/-- Python `str.upper` on one character, ASCII range. -/
def pyToUpper (c : Char) : Char :=
  if 97 ≤ c.toNat && c.toNat ≤ 122 then Char.ofNat (c.toNat - 32) else c

/-- Python `str.lower`. -/
def pyLower (s : List Char) : List Char := s.map pyToLower

/-- Python `str.upper`. -/
def pyUpper (s : List Char) : List Char := s.map pyToUpper

/-- Python `str.strip` whitespace set, ASCII range. -/
def pyIsSpace (c : Char) : Bool :=
  c = ' ' || c = '\t' || c = '\n' || c = '\x0d' || c = '\x0b' || c = '\x0c'

/-- Python `str.strip()`. -/
def pyStrip (s : List Char) : List Char :=
  ((s.dropWhile pyIsSpace).reverse.dropWhile pyIsSpace).reverse

/-- Python `value.replace("-", "")` from `SSN.cleanup_ssn`. -/
def removeDashes (s : List Char) : List Char := s.filter (fun c => c ≠ '-')

/-! ## The two regexes of the source, position for position -/

/-- Matcher for `(-?\d){n}` against the rest of the input, consuming it
whole: `n` repetitions of an optional dash followed by a digit.  When the
next character is a dash the regex can only consume dash-digit, so the
translation is backtracking-free. -/
def ssnGroups : Nat → List Char → Bool
  | 0, [] => true
  | 0, _ :: _ => false
  | _ + 1, [] => false
  | n + 1, c :: rest =>
    if c = '-' then
      match rest with
      | c2 :: rest2 => c2.isDigit && ssnGroups n rest2
      | [] => false
    else
      c.isDigit && ssnGroups n rest

/-- The body of `SSN.regex`, the pattern `^\d(-?\d){8}$`, matched against
the exact input: a digit followed by eight optional-dash-digit groups.
Python's `$` additionally tolerates one trailing newline; that is handled
by the `re.match` wrapper below. -/
def ssnRegexCore (s : List Char) : Bool :=
  match s with
  | c :: rest => c.isDigit && ssnGroups 8 rest
  | [] => false

/-- Membership in the character class `[sloibzSLOIBZ]` of `MBI.regex`. -/
def isAmbiguous (c : Char) : Bool :=
  c = 's' || c = 'l' || c = 'o' || c = 'i' || c = 'b' || c = 'z' ||
  c = 'S' || c = 'L' || c = 'O' || c = 'I' || c = 'B' || c = 'Z'

/-- The subpattern `(?![sloibzSLOIBZ])[a-zA-Z]` of `MBI.regex`: a letter
that is not one of the ambiguous characters. -/
def isMbiLetter (c : Char) : Bool :=
  ((97 ≤ c.toNat && c.toNat ≤ 122) || (65 ≤ c.toNat && c.toNat ≤ 90)) && !isAmbiguous c

/-- The character class `[1-9]` heading `MBI.regex`. -/
def isNonzeroDigit (c : Char) : Bool := '1' ≤ c && c ≤ '9'

/-- The body of `MBI.regex` matched against the exact input: eleven
positions, translated group for group from the source pattern (`[1-9]`,
letter, digit-or-letter, digit, letter, digit-or-letter, digit, letter,
letter, digit, digit). -/
def mbiRegexCore (s : List Char) : Bool :=
  match s with
  | [c1, c2, c3, c4, c5, c6, c7, c8, c9, c10, c11] =>
    isNonzeroDigit c1 && isMbiLetter c2 && (c3.isDigit || isMbiLetter c3) &&
    c4.isDigit && isMbiLetter c5 && (c6.isDigit || isMbiLetter c6) &&
    c7.isDigit && isMbiLetter c8 && isMbiLetter c9 && c10.isDigit && c11.isDigit
  | _ => false

/-- Python's `re.match` with a pattern of the shape `^body$`: `$` matches
at the end of the string or just before a newline at the end of the
string, so the pattern accepts the inputs whose body matches the whole
string, and those whose body matches the whole string minus a single
trailing newline. -/
def pyDollarAnchored (core : List Char → Bool) (s : List Char) : Bool :=
  core s || (decide (s.getLast? = some '\n') && core s.dropLast)

/-- `SSN.regex` as pydantic evaluates it, `re.match(r"^\d(-?\d){8}$", value)`. -/
def ssnRegexMatch : List Char → Bool := pyDollarAnchored ssnRegexCore

/-- `MBI.regex` as pydantic evaluates it, `re.match` of the `$`-terminated
positional pattern. -/
def mbiRegexMatch : List Char → Bool := pyDollarAnchored mbiRegexCore

/-! ## The pydantic v1 `ConstrainedStr` pipeline -/

/-- The class-level attributes of a pydantic v1 `ConstrainedStr` subclass
that the repository's types use. -/
structure StrConfig where
  strip_whitespace : Bool := false
  to_upper : Bool := false
  to_lower : Bool := false
  min_length : Option Nat := none
  max_length : Option Nat := none
  regex : Option (List Char → Bool) := none

/-- The errors the `ConstrainedStr` pipeline can raise:
`AnyStrMinLengthError`, `AnyStrMaxLengthError`, `StrRegexError`. -/
inductive StrError where
  | minLengthError
  | maxLengthError
  | regexError
  deriving DecidableEq, Repr

/-- The pydantic v1 validator chain of `ConstrainedStr` on a `str` input:
strip, upper, lower, length check, then the regex check, in that order. -/
def constrStrValidate (cfg : StrConfig) (s : List Char) : Except StrError (List Char) :=
  let v := if cfg.strip_whitespace then pyStrip s else s
  let v := if cfg.to_upper then pyUpper v else v
  let v := if cfg.to_lower then pyLower v else v
  if cfg.min_length.any (fun m => decide (v.length < m)) then
    .error .minLengthError
  else if cfg.max_length.any (fun m => decide (m < v.length)) then
    .error .maxLengthError
  else
    match cfg.regex with
    | some r => if r v then .ok v else .error .regexError
    | none => .ok v

/-- The class attributes of `SSN`: only `regex` is set. -/
def ssnConfig : StrConfig := { regex := some ssnRegexMatch }

/-- `SSN`'s validator chain: the inherited `ConstrainedStr` validators run
first, then `cleanup_ssn` removes the dashes from the accepted value. -/
def ssnMake (s : List Char) : Except StrError (List Char) :=
  (constrStrValidate ssnConfig s).map removeDashes

/-- The class attributes of `MBI`: `to_upper = True` and `regex`. -/
def mbiConfig : StrConfig := { to_upper := true, regex := some mbiRegexMatch }

/-- `MBI`'s validator chain: exactly the inherited `ConstrainedStr`
validators (upper-case, then the regex). -/
def mbiMake (s : List Char) : Except StrError (List Char) :=
  constrStrValidate mbiConfig s

/-! ## `CaseInsensitiveEnum`

An enum is modelled as the list of its members' canonical string values
in definition order; a member is its index into that list.  Python's
by-value lookup tries an exact match first and only then calls
`_missing_`, which scans the members in definition order comparing
lower-cased values. -/

/-- Index of the first member whose value satisfies `p`, scanning in
definition order (`for member in cls`). -/
def firstIdx (p : List Char → Bool) : List (List Char) → Option Nat
  | [] => none
  | v :: rest => if p v then some 0 else (firstIdx p rest).map (· + 1)

/-- `EnumType(value)`: exact value lookup first, then
`CaseInsensitiveEnum._missing_`'s linear scan over lower-cased values.
`none` models the `ValueError` for a value that is not a valid member
(the `NoSuchMember` error). -/
def enumResolve (vals : List (List Char)) (s : List Char) : Option Nat :=
  match firstIdx (fun v => v == s) vals with
  | some i => some i
  | none => firstIdx (fun v => pyLower v == pyLower s) vals

/-- `str(member)` of `StringEnum`: the member's canonical value. -/
def enumRender (vals : List (List Char)) (i : Nat) : List Char :=
  vals.getD i []

/-! ## `UTCDatetime`

`datetime` values are modelled structurally; `tzinfo` as an inductive
type distinguishing the `datetime.timezone.utc` singleton, other
`datetime.timezone` fixed-offset instances (offset in minutes, optional
name), and tzinfo objects of a different class compared by identity
(pytz's `UTC`, for instance).  CPython returns the `utc` singleton for
`timezone(timedelta(0))` with no name, so a parsed zero offset is the
`utc` constructor. -/

/-- A `tzinfo` object. -/
inductive Tz where
  /-- The singleton `datetime.timezone.utc`. -/
  | utc
  /-- A `datetime.timezone(timedelta(minutes=m), name?)` instance other
  than the `utc` singleton. -/
  | fixedOffset (minutes : Int) (name : Option (List Char))
  /-- A `tzinfo` of a class other than `datetime.timezone`, with its
  `utcoffset` in minutes; such an object compares unequal to
  `timezone.utc` (no cross-class `__eq__`, identity is the fallback). -/
  | foreign (name : List Char) (minutes : Int)
  deriving DecidableEq, Repr

/-- Python `tzinfo == timezone.utc`: `datetime.timezone.__eq__` compares
offsets only (the name is ignored); a `tzinfo` of another class is not
equal (identity fallback). -/
def Tz.eqUtc : Tz → Bool
  | .utc => true
  | .fixedOffset m _ => m == 0
  | .foreign _ _ => false

/-- The `utcoffset`, in minutes. -/
def Tz.offsetMinutes : Tz → Int
  | .utc => 0
  | .fixedOffset m _ => m
  | .foreign _ m => m

/-- `timezone` accepts offsets strictly between -24 and +24 hours. -/
def Tz.validTz : Tz → Bool
  | .utc => true
  | .fixedOffset m _ => m.natAbs ≤ 1439
  | .foreign _ m => m.natAbs ≤ 1439

/-- A `datetime.datetime` value. -/
structure PyDatetime where
  year : Nat
  month : Nat
  day : Nat
  hour : Nat
  minute : Nat
  second : Nat
  microsecond : Nat
  tz : Option Tz
  deriving DecidableEq, Repr

/-- Gregorian leap year, as `calendar.isleap`. -/
def isLeap (y : Nat) : Bool := y % 4 == 0 && (y % 100 != 0 || y % 400 == 0)

/-- Days in a month of the proleptic Gregorian calendar. -/
def daysInMonth (y m : Nat) : Nat :=
  if m = 2 then (if isLeap y then 29 else 28)
  else if m = 4 || m = 6 || m = 9 || m = 11 then 30
  else 31

/-- The range checks of the `datetime.datetime` constructor (`MINYEAR` 1,
`MAXYEAR` 9999, calendar-valid day, field bounds, `tzinfo` offset
bounds). -/
def PyDatetime.valid (d : PyDatetime) : Bool :=
  1 ≤ d.year && d.year ≤ 9999 && 1 ≤ d.month && d.month ≤ 12 &&
  1 ≤ d.day && d.day ≤ daysInMonth d.year d.month &&
  d.hour ≤ 23 && d.minute ≤ 59 && d.second ≤ 59 && d.microsecond ≤ 999999 &&
  (match d.tz with | none => true | some t => t.validTz)

/-- Days before January 1st of year `y` in the proleptic Gregorian
calendar (the basis of `date.toordinal`). -/
def daysBeforeYear (y : Nat) : Nat :=
  (y - 1) * 365 + (y - 1) / 4 - (y - 1) / 100 + (y - 1) / 400

/-- Days in year `y` before month `m`. -/
def daysBeforeMonth (y m : Nat) : Nat :=
  ((List.range (m - 1)).map (fun i => daysInMonth y (i + 1))).sum

/-- `date.toordinal`: day number of the proleptic Gregorian calendar,
with 0001-01-01 as day 1. -/
def PyDatetime.toOrdinal (d : PyDatetime) : Nat :=
  daysBeforeYear d.year + daysBeforeMonth d.year d.month + d.day

/-- The instant a datetime denotes, in microseconds, once its
`utcoffset` (in minutes) is subtracted — what aware-datetime comparison
compares. -/
def PyDatetime.instantMicros (d : PyDatetime) (off : Int) : Int :=
  (((d.toOrdinal : Int) * 86400 + (d.hour : Int) * 3600 + (d.minute : Int) * 60 +
      (d.second : Int)) * 1000000 + (d.microsecond : Int)) - off * 60000000

/-- Python `datetime.__eq__`: two naive datetimes compare field-wise, two
aware datetimes compare as instants (offset-adjusted), and a naive and an
aware datetime are never equal. -/
def dtEq (a b : PyDatetime) : Bool :=
  match a.tz, b.tz with
  | none, none =>
    a.year == b.year && a.month == b.month && a.day == b.day &&
    a.hour == b.hour && a.minute == b.minute && a.second == b.second &&
    a.microsecond == b.microsecond
  | some ta, some tb =>
    a.instantMicros ta.offsetMinutes == b.instantMicros tb.offsetMinutes
  | _, _ => false

/-! ### pydantic v1 `parse_datetime`'s string grammar

The source regex is
`(\d{4})-(\d{1,2})-(\d{1,2})[T ](\d{1,2}):(\d{1,2})(?::(\d{1,2})(?:\.(\d{1,6})\d{0,6})?)?(Z|[+-]\d{2}(?::?\d{2})?)?$`.
Every 1-or-2-digit field is followed by a separator, a non-digit optional
part, or the end, so the greedy reading below is equivalent to the
backtracking regex. -/

/-- Numeric value of a digit character. -/
def digitVal (c : Char) : Nat := c.toNat - 48

/-- Value of a digit string, most significant first. -/
def digitsToNat (ds : List Char) : Nat :=
  ds.foldl (fun a c => a * 10 + digitVal c) 0

/-- Exactly four digits (`\d{4}`). -/
def read4 : List Char → Option (Nat × List Char)
  | a :: b :: c :: d :: rest =>
    if a.isDigit && b.isDigit && c.isDigit && d.isDigit then
      some (digitsToNat [a, b, c, d], rest)
    else none
  | _ => none

/-- Exactly two digits (`\d{2}`). -/
def read2 : List Char → Option (Nat × List Char)
  | a :: b :: rest =>
    if a.isDigit && b.isDigit then some (digitVal a * 10 + digitVal b, rest) else none
  | _ => none

/-- One or two digits, greedily (`\d{1,2}`). -/
def readUpTo2 : List Char → Option (Nat × List Char)
  | a :: b :: rest =>
    if a.isDigit then
      if b.isDigit then some (digitVal a * 10 + digitVal b, rest)
      else some (digitVal a, b :: rest)
    else none
  | [a] => if a.isDigit then some (digitVal a, []) else none
  | [] => none

/-- One character. -/
def expect (ch : Char) : List Char → Option (List Char)
  | c :: rest => if c = ch then some rest else none
  | [] => none

/-- The `[T ]` date-time separator. -/
def expectSep : List Char → Option (List Char)
  | c :: rest => if c = 'T' || c = ' ' then some rest else none
  | [] => none

/-- Left-justify a digit string to six characters with trailing zeros
(`kw["microsecond"].ljust(6, "0")`). -/
def ljust6 (ds : List Char) : List Char :=
  ds ++ List.replicate (6 - ds.length) '0'

/-- The fractional-second part `(?:\.(\d{1,6})\d{0,6})?`: the first six
captured digits are left-justified to microseconds, up to six further
digits are discarded, and a thirteenth digit can match nothing that
follows. -/
def parseFrac (cs : List Char) : Option (Nat × List Char) :=
  match cs with
  | c :: rest =>
    if c = '.' then
      let ds := rest.takeWhile Char.isDigit
      if ds.length = 0 || 12 < ds.length then none
      else some (digitsToNat (ljust6 (ds.take 6)), rest.dropWhile Char.isDigit)
    else some (0, c :: rest)
  | [] => some (0, [])

/-- The optional `(?::(\d{1,2})(?:\. ...)?)?` second-and-fraction part;
absent fields default to zero. -/
def parseSecFrac (cs : List Char) : Option (Nat × Nat × List Char) :=
  match cs with
  | c :: rest =>
    if c = ':' then do
      let (ss, rest2) ← readUpTo2 rest
      let (micro, rest3) ← parseFrac rest2
      some (ss, micro, rest3)
    else some (0, 0, c :: rest)
  | [] => some (0, 0, [])

/-- `timezone(timedelta(minutes=off))` in pydantic's `_parse_timezone`:
out-of-range offsets raise (a `DateTimeError`); a zero offset is the
`utc` singleton. -/
def mkTz (off : Int) : Option Tz :=
  if off.natAbs ≤ 1439 then some (if off = 0 then Tz.utc else Tz.fixedOffset off none)
  else none

/-- The trailing `(Z|[+-]\d{2}(?::?\d{2})?)?$` timezone part, consuming
the rest of the input.  `some none` is an absent timezone (a naive
result); `none` is a failed parse. -/
def parseTz (cs : List Char) : Option (Option Tz) :=
  match cs with
  | [] => some none
  | c :: rest =>
    if c = 'Z' then
      if rest = [] then some (some Tz.utc) else none
    else if c = '+' || c = '-' then
      match read2 rest with
      | none => none
      | some (hh, rest2) =>
        let mmRest : Option (Nat × List Char) :=
          match rest2 with
          | [] => some (0, [])
          | ':' :: r => read2 r
          | _ => read2 rest2
        match mmRest with
        | none => none
        | some (mm, rest3) =>
          if rest3 = [] then
            (mkTz ((if c = '-' then -1 else 1) * ((hh : Int) * 60 + (mm : Int)))).map some
          else none
    else none

/-- The whole `datetime_re` match, building the keyword arguments of
`datetime(**kw)`. -/
def parseDT (cs : List Char) : Option PyDatetime := do
  let (y, cs) ← read4 cs
  let cs ← expect '-' cs
  let (mo, cs) ← readUpTo2 cs
  let cs ← expect '-' cs
  let (dy, cs) ← readUpTo2 cs
  let cs ← expectSep cs
  let (hh, cs) ← readUpTo2 cs
  let cs ← expect ':' cs
  let (mi, cs) ← readUpTo2 cs
  let (ss, micro, cs) ← parseSecFrac cs
  let tz? ← parseTz cs
  some ⟨y, mo, dy, hh, mi, ss, micro, tz?⟩

/-- The errors of the `UTCDatetime` chain: pydantic's `DateTimeError`
from `parse_datetime`, and the two distinct `ValueError`s of
`UTCDatetime.validate` (the naive-timestamp and the non-UTC messages). -/
inductive DtError where
  | parseError
  | naiveError
  | nonUtcError
  deriving DecidableEq, Repr

/-- `datetime_re.match`: the grammar matched against the whole input, or
— `datetime_re` being `$`-terminated and no grammar terminal matching a
newline — against the whole input minus a single trailing newline. -/
def parseDTPy (s : List Char) : Option PyDatetime :=
  match parseDT s with
  | some d => some d
  | none => if s.getLast? = some '\n' then parseDT s.dropLast else none

/-- pydantic v1 `parse_datetime` on a `str` input: the regex match plus
the range checks of the `datetime` constructor. -/
def parseDatetimeStr (s : List Char) : Except DtError PyDatetime :=
  match parseDTPy s with
  | none => .error .parseError
  | some d => if d.valid then .ok d else .error .parseError

/-- The two input forms the claims exercise: an already-constructed
`datetime`, which `parse_datetime` passes through unchanged, or a string
to be parsed. -/
inductive DtInput where
  | fromDatetime (d : PyDatetime)
  | fromString (s : List Char)
  deriving Repr

/-- `parse_datetime`, the first validator of `UTCDatetime`. -/
def parse_datetime : DtInput → Except DtError PyDatetime
  | .fromDatetime d => .ok d
  | .fromString s => parseDatetimeStr s

/-- `UTCDatetime.validate`: reject a missing `tzinfo` with the naive
error, a `tzinfo` unequal to `timezone.utc` with the non-UTC error, and
return the value unchanged otherwise. -/
def utcValidate (d : PyDatetime) : Except DtError PyDatetime :=
  match d.tz with
  | none => .error .naiveError
  | some t => if t.eqUtc then .ok d else .error .nonUtcError

/-- The full `UTCDatetime` validator chain. -/
def utcMake (i : DtInput) : Except DtError PyDatetime :=
  (parse_datetime i).bind utcValidate

/-- An input a Python caller can actually supply: any string, or an
actually-constructible `datetime` object. -/
def DtInput.validInput : DtInput → Prop
  | .fromDatetime d => d.valid = true
  | .fromString _ => True

/-! ### Rendering (`datetime.isoformat`, used by `.json()`) -/

/-- The decimal digit characters. -/
def digitChar : Nat → Char
  | 0 => '0' | 1 => '1' | 2 => '2' | 3 => '3' | 4 => '4'
  | 5 => '5' | 6 => '6' | 7 => '7' | 8 => '8' | _ => '9'

/-- Two-digit zero-padded decimal. -/
def pad2 (n : Nat) : List Char := [digitChar (n / 10 % 10), digitChar (n % 10)]

/-- Four-digit zero-padded decimal. -/
def pad4 (n : Nat) : List Char :=
  [digitChar (n / 1000 % 10), digitChar (n / 100 % 10), digitChar (n / 10 % 10),
    digitChar (n % 10)]

/-- Six-digit zero-padded decimal. -/
def pad6 (n : Nat) : List Char :=
  [digitChar (n / 100000 % 10), digitChar (n / 10000 % 10), digitChar (n / 1000 % 10),
    digitChar (n / 100 % 10), digitChar (n / 10 % 10), digitChar (n % 10)]

/-- `datetime.isoformat()`: seconds always present, microseconds only
when nonzero, and for an aware value the `±HH:MM` rendering of its
`utcoffset`. -/
def isoformat (d : PyDatetime) : List Char :=
  pad4 d.year ++ '-' :: pad2 d.month ++ '-' :: pad2 d.day ++
  'T' :: pad2 d.hour ++ ':' :: pad2 d.minute ++ ':' :: pad2 d.second ++
  (if d.microsecond = 0 then [] else '.' :: pad6 d.microsecond) ++
  (match d.tz with
   | none => []
   | some t =>
     (if t.offsetMinutes < 0 then '-' else '+') ::
       (pad2 (t.offsetMinutes.natAbs / 60) ++ ':' :: pad2 (t.offsetMinutes.natAbs % 60)))

/-! ## Spec-side shape definitions

These definitions follow the wording of the specification's claims, to be
compared against the code-side definitions above. -/

/-- The spec's predicate for the identifier type: exactly nine decimal
digits. -/
def nineDigits (v : List Char) : Bool := v.length == 9 && v.all Char.isDigit

/-- Claim C1's reading of `SSN`: the nine-digit predicate evaluated
against the dash-free normalized value of the raw input. -/
def ssnSpecOrderAccept (s : List Char) : Bool := nineDigits (removeDashes s)

/-- A digit or a dash. -/
def digitOrDash (c : Char) : Bool := c.isDigit || c = '-'

/-- No two adjacent dash characters. -/
def noAdjacentDashes : List Char → Bool
  | [] => true
  | [_] => true
  | a :: b :: rest => !(a = '-' && b = '-') && noAdjacentDashes (b :: rest)

/-- The spec's acceptance shape for the identifier type: a string of nine
decimal digits with zero or more single dashes inserted between digits
(so only digits and dashes, starting and ending with a digit, no double
dash, and nine digits in all). -/
def dashInsertedNineDigits (s : List Char) : Bool :=
  s.all digitOrDash &&
  (match s.head? with | some c => c.isDigit | none => false) &&
  (match s.getLast? with | some c => c.isDigit | none => false) &&
  noAdjacentDashes s &&
  (s.countP Char.isDigit == 9)

/-- Claim C6's positional shape, as the claim words it: length 11, digits
at positions 1, 4, 7, 10, 11 (position 1 in 1-9), and at every other
position a letter excluding the ambiguous set. -/
def mbiSpecShape (v : List Char) : Bool :=
  v.length == 11 &&
  isNonzeroDigit (v.getD 0 ' ') && (v.getD 3 ' ').isDigit && (v.getD 6 ' ').isDigit &&
  (v.getD 9 ' ').isDigit && (v.getD 10 ' ').isDigit &&
  isMbiLetter (v.getD 1 ' ') && isMbiLetter (v.getD 2 ' ') && isMbiLetter (v.getD 4 ' ') &&
  isMbiLetter (v.getD 5 ' ') && isMbiLetter (v.getD 7 ' ') && isMbiLetter (v.getD 8 ' ')

/-- The amended positional shape: as claim C6, except that positions 3
and 6 admit a digit or a non-ambiguous letter. -/
def mbiShape (v : List Char) : Bool :=
  v.length == 11 &&
  isNonzeroDigit (v.getD 0 ' ') && isMbiLetter (v.getD 1 ' ') &&
  ((v.getD 2 ' ').isDigit || isMbiLetter (v.getD 2 ' ')) &&
  (v.getD 3 ' ').isDigit && isMbiLetter (v.getD 4 ' ') &&
  ((v.getD 5 ' ').isDigit || isMbiLetter (v.getD 5 ' ')) &&
  (v.getD 6 ' ').isDigit && isMbiLetter (v.getD 7 ' ') && isMbiLetter (v.getD 8 ' ') &&
  (v.getD 9 ' ').isDigit && (v.getD 10 ' ').isDigit

/-- Decidable equality for validation results. -/
instance {e a : Type} [DecidableEq e] [DecidableEq a] : DecidableEq (Except e a) := fun x y =>
  match x, y with
  | .ok u, .ok v =>
    if h : u = v then .isTrue (by rw [h]) else .isFalse (by intro hc; cases hc; exact h rfl)
  | .error u, .error v =>
    if h : u = v then .isTrue (by rw [h]) else .isFalse (by intro hc; cases hc; exact h rfl)
  | .ok _, .error _ => .isFalse (by intro hc; cases hc)
  | .error _, .ok _ => .isFalse (by intro hc; cases hc)

end Yagni

namespace Yagni

/-! ## Supporting lemmas -/

lemma digit_ne_dash {c : Char} (h : c.isDigit = true) : ¬ c = '-' := by
  intro he; subst he; exact absurd h (by decide)

lemma noAdjacentDashes_tail {c : Char} {rest : List Char}
    (h : noAdjacentDashes (c :: rest) = true) : noAdjacentDashes rest = true := by
  cases rest with
  | nil => rfl
  | cons b r => simp [noAdjacentDashes] at h; exact h.2

lemma ssnGroups_facts : ∀ (n : Nat) (s : List Char), ssnGroups n s = true →
    (removeDashes s).length = n ∧ (removeDashes s).all Char.isDigit = true ∧
    s.all digitOrDash = true ∧ noAdjacentDashes s = true ∧
    (s = [] ∨ ∃ c, s.getLast? = some c ∧ c.isDigit = true) := by
  intro n s h
  induction n, s using ssnGroups.induct with
  | case1 => simp [removeDashes, noAdjacentDashes]
  | case2 head tail => simp [ssnGroups] at h
  | case3 n => simp [ssnGroups] at h
  | case4 n c2 rest2 ih =>
    simp [ssnGroups] at h
    obtain ⟨hd, hg⟩ := h
    obtain ⟨h1, h2, h3, h4, h5⟩ := ih hg
    have hne : ¬ c2 = '-' := digit_ne_dash hd
    refine ⟨?_, ?_, ?_, ?_, ?_⟩
    · simpa [removeDashes, List.filter, hne] using h1
    · simpa [removeDashes, List.filter, hne, hd] using h2
    · simp [digitOrDash, hd, h3]
    · cases rest2 with
      | nil => simp [noAdjacentDashes, hne]
      | cons b r => simp [noAdjacentDashes, hne] at h4 ⊢; exact h4
    · right
      cases rest2 with
      | nil => exact ⟨c2, by simp, hd⟩
      | cons b r =>
        rcases h5 with h5 | ⟨c, hc, hcd⟩
        · simp at h5
        · exact ⟨c, by simpa using hc, hcd⟩
  | case5 n => simp [ssnGroups] at h
  | case6 n c rest hne ih =>
    simp [ssnGroups, hne] at h
    obtain ⟨hd, hg⟩ := h
    obtain ⟨h1, h2, h3, h4, h5⟩ := ih hg
    refine ⟨?_, ?_, ?_, ?_, ?_⟩
    · simpa [removeDashes, List.filter, hne] using h1
    · simpa [removeDashes, List.filter, hne, hd] using h2
    · simp [digitOrDash, hd, h3]
    · cases rest with
      | nil => simp [noAdjacentDashes]
      | cons b r => simp [noAdjacentDashes, hne] at h4 ⊢; exact h4
    · right
      cases rest with
      | nil => exact ⟨c, by simp, hd⟩
      | cons b r =>
        rcases h5 with h5 | ⟨c2, hc, hcd⟩
        · simp at h5
        · exact ⟨c2, by simpa using hc, hcd⟩

end Yagni
namespace Yagni

lemma all_cons_split {p : Char → Bool} {c : Char} {rest : List Char}
    (h : (c :: rest).all p = true) : p c = true ∧ rest.all p = true := by
  rw [List.all_cons, Bool.and_eq_true] at h; exact h

lemma last_shift {c : Char} {b : Char} {r : List Char} {cl : Char}
    (h : (c :: b :: r).getLast? = some cl) : (b :: r).getLast? = some cl := by
  simpa using h

lemma ssnGroups_of_shape : ∀ (n : Nat) (s : List Char), s.all digitOrDash = true →
    noAdjacentDashes s = true →
    (s = [] ∨ ∃ c, s.getLast? = some c ∧ c.isDigit = true) →
    s.countP Char.isDigit = n → ssnGroups n s = true := by
  intro n
  induction n with
  | zero =>
    intro s hall hadj hlast hcount
    cases s with
    | nil => rfl
    | cons c rest =>
      exfalso
      rcases hlast with h | ⟨cl, hcl, hcld⟩
      · simp at h
      · have hm : cl ∈ c :: rest := List.mem_of_mem_getLast? hcl
        have : 0 < (c :: rest).countP Char.isDigit :=
          List.countP_pos_iff.mpr ⟨cl, hm, hcld⟩
        omega
  | succ k ih =>
    intro s hall hadj hlast hcount
    cases s with
    | nil => simp at hcount
    | cons c rest =>
      by_cases hc : c = '-'
      · subst hc
        cases rest with
        | nil =>
          rcases hlast with h | ⟨cl, hcl, hcld⟩
          · simp at h
          · simp at hcl; subst hcl; exact absurd hcld (by decide)
        | cons c2 rest2 =>
          have hc2 : ¬ c2 = '-' := by
            simp [noAdjacentDashes] at hadj
            exact fun h => absurd h hadj.1
          have hc2d : c2.isDigit = true := by
            have := (all_cons_split ((all_cons_split hall).2)).1
            simpa [digitOrDash, hc2] using this
          simp [ssnGroups]
          refine ⟨hc2d, ih rest2 ?_ ?_ ?_ ?_⟩
          · exact (all_cons_split ((all_cons_split hall).2)).2
          · exact noAdjacentDashes_tail (noAdjacentDashes_tail hadj)
          · cases rest2 with
            | nil => left; rfl
            | cons b r =>
              right
              rcases hlast with h | ⟨cl, hcl, hcld⟩
              · simp at h
              · exact ⟨cl, last_shift (last_shift hcl), hcld⟩
          · have he : ('-' :: c2 :: rest2).countP Char.isDigit =
                rest2.countP Char.isDigit + 1 := by
              simp [List.countP_cons, hc2d, (by decide : Char.isDigit '-' = false)]
            omega
      · have hcd : c.isDigit = true := by
          have := (all_cons_split hall).1
          simpa [digitOrDash, hc] using this
        simp [ssnGroups, hc]
        refine ⟨hcd, ih rest ?_ ?_ ?_ ?_⟩
        · exact (all_cons_split hall).2
        · exact noAdjacentDashes_tail hadj
        · cases rest with
          | nil => left; rfl
          | cons b r =>
            right
            rcases hlast with h | ⟨cl, hcl, hcld⟩
            · simp at h
            · exact ⟨cl, last_shift hcl, hcld⟩
        · have he : (c :: rest).countP Char.isDigit = rest.countP Char.isDigit + 1 := by
            simp [List.countP_cons, hcd]
          omega

end Yagni
namespace Yagni

lemma countP_eq_removeDashes_length : ∀ s : List Char, s.all digitOrDash = true →
    s.countP Char.isDigit = (removeDashes s).length := by
  intro s hall
  induction s with
  | nil => rfl
  | cons c rest ih =>
    obtain ⟨hc, hrest⟩ := all_cons_split hall
    by_cases hd : c = '-'
    · subst hd
      simp [List.countP_cons, removeDashes, List.filter, (by decide : Char.isDigit '-' = false)]
      simpa [removeDashes] using ih hrest
    · have hcd : c.isDigit = true := by simpa [digitOrDash, hd] using hc
      simp [List.countP_cons, hcd, removeDashes, List.filter, hd]
      simpa [removeDashes] using ih hrest

lemma noAdjacentDashes_of_digits : ∀ s : List Char, s.all Char.isDigit = true →
    noAdjacentDashes s = true := by
  intro s hall
  induction s with
  | nil => rfl
  | cons c rest ih =>
    obtain ⟨hc, hrest⟩ := all_cons_split hall
    cases rest with
    | nil => rfl
    | cons b r =>
      obtain ⟨hb, _⟩ := all_cons_split hrest
      simp [noAdjacentDashes, digit_ne_dash hc]
      exact ih hrest

lemma ssnRegexCore_iff_shape : ∀ s, ssnRegexCore s = true ↔ dashInsertedNineDigits s = true := by
  intro s
  constructor
  · intro h
    cases s with
    | nil => simp [ssnRegexCore] at h
    | cons c rest =>
      simp [ssnRegexCore] at h
      obtain ⟨hcd, hg⟩ := h
      obtain ⟨h1, h2, h3, h4, h5⟩ := ssnGroups_facts 8 rest hg
      have hall : (c :: rest).all digitOrDash = true := by
        rw [List.all_cons, Bool.and_eq_true]
        exact ⟨by simp [digitOrDash, hcd], h3⟩
      have hcount : (c :: rest).countP Char.isDigit = 9 := by
        have := countP_eq_removeDashes_length rest h3
        simp [List.countP_cons, hcd]
        omega
      rw [dashInsertedNineDigits]
      simp only [Bool.and_eq_true, beq_iff_eq]
      refine ⟨⟨⟨⟨hall, by simpa using hcd⟩, ?_⟩, ?_⟩, hcount⟩
      · rcases h5 with h5 | ⟨cl, hcl, hcld⟩
        · subst h5; simpa using hcd
        · cases rest with
          | nil => simp at hcl
          | cons b r =>
            have hg : (c :: b :: r).getLast? = some cl := by simpa using hcl
            rw [hg]
            exact hcld
      · cases rest with
        | nil => rfl
        | cons b r =>
          have hb : ¬ b = '-' ∨ True := Or.inr trivial
          simp [noAdjacentDashes, digit_ne_dash hcd]
          exact h4
  · intro h
    rw [dashInsertedNineDigits] at h
    simp only [Bool.and_eq_true, beq_iff_eq] at h
    obtain ⟨⟨⟨⟨hall, hhead⟩, hlast⟩, hadj⟩, hcount⟩ := h
    cases s with
    | nil => simp at hhead
    | cons c rest =>
      have hcd : c.isDigit = true := by simpa using hhead
      simp [ssnRegexCore, hcd]
      apply ssnGroups_of_shape
      · exact (all_cons_split hall).2
      · exact noAdjacentDashes_tail hadj
      · cases rest with
        | nil => left; rfl
        | cons b r =>
          right
          cases hgl : (b :: r).getLast? with
          | none => simp at hgl
          | some cl =>
            refine ⟨cl, rfl, ?_⟩
            have : (c :: b :: r).getLast? = some cl := by simpa using hgl
            rw [this] at hlast
            simpa using hlast
      · simp [List.countP_cons, hcd] at hcount
        omega

end Yagni
namespace Yagni

lemma ssnMake_eq (s : List Char) :
    ssnMake s = (if ssnRegexMatch s = true then Except.ok (removeDashes s)
      else Except.error StrError.regexError) := by
  simp [ssnMake, constrStrValidate, ssnConfig, Option.any]
  split <;> simp_all [Except.map]

lemma mbiMake_eq (s : List Char) :
    mbiMake s = (if mbiRegexMatch (pyUpper s) = true then Except.ok (pyUpper s)
      else Except.error StrError.regexError) := by
  simp [mbiMake, constrStrValidate, mbiConfig, Option.any]

lemma removeDashes_all_digits {s : List Char} (h : ssnRegexCore s = true) :
    nineDigits (removeDashes s) = true := by
  cases s with
  | nil => simp [ssnRegexCore] at h
  | cons c rest =>
    simp [ssnRegexCore] at h
    obtain ⟨hcd, hg⟩ := h
    obtain ⟨h1, h2, _, _, _⟩ := ssnGroups_facts 8 rest hg
    rw [nineDigits]
    simp only [Bool.and_eq_true, beq_iff_eq]
    have hr : removeDashes (c :: rest) = c :: removeDashes rest := by
      simp [removeDashes, List.filter, digit_ne_dash hcd]
    constructor
    · rw [hr]
      simpa [removeDashes] using h1
    · rw [hr, List.all_cons, Bool.and_eq_true]
      exact ⟨hcd, h2⟩

lemma ssnRegexCore_of_nineDigits {v : List Char} (h : nineDigits v = true) :
    ssnRegexCore v = true := by
  rw [nineDigits] at h
  simp only [Bool.and_eq_true, beq_iff_eq] at h
  obtain ⟨hlen, hdig⟩ := h
  rw [ssnRegexCore_iff_shape, dashInsertedNineDigits]
  simp only [Bool.and_eq_true, beq_iff_eq]
  have hall : v.all digitOrDash = true := by
    rw [List.all_eq_true] at hdig ⊢
    intro a ha
    simp [digitOrDash, hdig a ha]
  refine ⟨⟨⟨⟨hall, ?_⟩, ?_⟩, noAdjacentDashes_of_digits v hdig⟩, ?_⟩
  · cases v with
    | nil => simp at hlen
    | cons c rest => exact (all_cons_split hdig).1
  · cases hgl : v.getLast? with
    | none =>
      cases v with
      | nil => simp at hlen
      | cons c rest => simp at hgl
    | some cl =>
      exact (List.all_eq_true.mp hdig) cl (List.mem_of_mem_getLast? hgl)
  · rw [List.countP_eq_length.mpr (List.all_eq_true.mp hdig)]
    exact hlen

lemma removeDashes_idem (s : List Char) : removeDashes (removeDashes s) = removeDashes s := by
  simp [removeDashes, List.filter_filter]

end Yagni
namespace Yagni

lemma mbiRegexCore_eq_mbiShape (v : List Char) : mbiRegexCore v = mbiShape v := by
  match v with
  | [] => rfl
  | [a] => rfl
  | [a,b] => rfl
  | [a,b,c] => rfl
  | [a,b,c,d] => rfl
  | [a,b,c,d,e] => rfl
  | [a,b,c,d,e,f] => rfl
  | [a,b,c,d,e,f,g] => rfl
  | [a,b,c,d,e,f,g,h] => rfl
  | [a,b,c,d,e,f,g,h,i] => rfl
  | [a,b,c,d,e,f,g,h,i,j] => rfl
  | [a,b,c,d,e,f,g,h,i,j,k] =>
    simp [mbiRegexCore, mbiShape, List.getD]
  | a :: b :: c :: d :: e :: f :: g :: h :: i :: j :: k :: l :: rest =>
    simp [mbiRegexCore, mbiShape]

lemma char_toNat_ofNat {n : Nat} (h : Nat.isValidChar n) : (Char.ofNat n).toNat = n := by
  unfold Char.ofNat
  split
  · rfl
  · contradiction

lemma pyToUpper_not_lower (c : Char) :
    ¬ (97 ≤ (pyToUpper c).toNat ∧ (pyToUpper c).toNat ≤ 122) := by
  rw [pyToUpper]
  by_cases h : 97 ≤ c.toNat ∧ c.toNat ≤ 122
  · rw [if_pos (by simp [h.1, h.2])]
    have hv : Nat.isValidChar (c.toNat - 32) := Or.inl (by omega)
    rw [char_toNat_ofNat hv]
    omega
  · rw [if_neg (by simpa using fun h1 h2 => h ⟨h1, h2⟩)]
    exact h

lemma pyToUpper_idem (c : Char) : pyToUpper (pyToUpper c) = pyToUpper c := by
  conv_lhs => rw [pyToUpper]
  rw [if_neg]
  simpa using fun h1 h2 => (pyToUpper_not_lower c) ⟨h1, h2⟩

lemma pyUpper_idem (s : List Char) : pyUpper (pyUpper s) = pyUpper s := by
  rw [pyUpper, pyUpper, List.map_map]
  exact List.map_congr_left (fun a _ => pyToUpper_idem a)

end Yagni
namespace Yagni

lemma firstIdx_eq_none_iff (p : List Char → Bool) (vals : List (List Char)) :
    firstIdx p vals = none ↔ ∀ v ∈ vals, p v = false := by
  induction vals with
  | nil => simp [firstIdx]
  | cons v rest ih =>
    rw [firstIdx]
    by_cases hp : p v = true
    · simp [hp]
    · simp only [Bool.not_eq_true] at hp
      simp [hp, ih]

lemma firstIdx_eq_some_facts {p : List Char → Bool} :
    ∀ {vals : List (List Char)} {i : Nat}, firstIdx p vals = some i →
    ∃ h : i < vals.length, p vals[i] = true := by
  intro vals
  induction vals with
  | nil => intro i h; simp [firstIdx] at h
  | cons v rest ih =>
    intro i h
    rw [firstIdx] at h
    by_cases hp : p v = true
    · rw [if_pos hp] at h
      cases h
      exact ⟨by simp, hp⟩
    · rw [if_neg hp] at h
      cases hf : firstIdx p rest with
      | none => rw [hf] at h; simp at h
      | some j =>
        rw [hf] at h
        simp at h
        obtain ⟨hj, hpj⟩ := ih hf
        subst h
        exact ⟨by simpa using Nat.succ_lt_succ hj, by simpa using hpj⟩

lemma firstIdx_of_unique {p : List Char → Bool} :
    ∀ {vals : List (List Char)} {i : Nat} (hi : i < vals.length),
    p vals[i] = true → (∀ j (hj : j < vals.length), p vals[j] = true → j = i) →
    firstIdx p vals = some i := by
  intro vals
  induction vals with
  | nil => intro i hi; simp at hi
  | cons v rest ih =>
    intro i hi hp huniq
    rw [firstIdx]
    by_cases hpv : p v = true
    · have h0 : 0 = i := huniq 0 (by simp) (by simpa using hpv)
      rw [if_pos hpv, ← h0]
    · have hi0 : i ≠ 0 := by
        intro h0
        subst h0
        exact hpv (by simpa using hp)
      obtain ⟨i', rfl⟩ : ∃ i', i = i' + 1 := ⟨i - 1, by omega⟩
      rw [if_neg hpv]
      have hrec : firstIdx p rest = some i' := by
        apply ih (by simpa using Nat.lt_of_succ_lt_succ hi)
        · simpa using hp
        · intro j hj hpj
          have := huniq (j + 1) (by simpa using Nat.succ_lt_succ hj) (by simpa using hpj)
          omega
      rw [hrec]
      rfl

end Yagni
namespace Yagni

lemma digitChar_isDigit : ∀ k, k < 10 → (digitChar k).isDigit = true := by decide

lemma digitVal_digitChar : ∀ k, k < 10 → digitVal (digitChar k) = k := by decide

lemma read4_pad4 (y : Nat) (r : List Char) (h : y ≤ 9999) :
    read4 (pad4 y ++ r) = some (y, r) := by
  have h3 := Nat.mod_lt (y / 1000) (show 0 < 10 by norm_num)
  have h2 := Nat.mod_lt (y / 100) (show 0 < 10 by norm_num)
  have h1 := Nat.mod_lt (y / 10) (show 0 < 10 by norm_num)
  have h0 := Nat.mod_lt y (show 0 < 10 by norm_num)
  rw [pad4]
  simp only [List.cons_append, List.nil_append, read4]
  rw [if_pos]
  · rw [digitsToNat]
    simp only [List.foldl]
    rw [digitVal_digitChar _ h3, digitVal_digitChar _ h2, digitVal_digitChar _ h1,
      digitVal_digitChar _ h0]
    congr 1
    congr 1
    omega
  · simp [digitChar_isDigit _ h3, digitChar_isDigit _ h2, digitChar_isDigit _ h1,
      digitChar_isDigit _ h0]

lemma readUpTo2_pad2 (n : Nat) (r : List Char) (h : n ≤ 99) :
    readUpTo2 (pad2 n ++ r) = some (n, r) := by
  have h1 := Nat.mod_lt (n / 10) (show 0 < 10 by norm_num)
  have h0 := Nat.mod_lt n (show 0 < 10 by norm_num)
  rw [pad2]
  simp only [List.cons_append, List.nil_append, readUpTo2]
  rw [if_pos (digitChar_isDigit _ h1), if_pos (digitChar_isDigit _ h0)]
  rw [digitVal_digitChar _ h1, digitVal_digitChar _ h0]
  congr 2
  omega

lemma digitsToNat_pad6 (m : Nat) (h : m ≤ 999999) : digitsToNat (pad6 m) = m := by
  have h5 := Nat.mod_lt (m / 100000) (show 0 < 10 by norm_num)
  have h4 := Nat.mod_lt (m / 10000) (show 0 < 10 by norm_num)
  have h3 := Nat.mod_lt (m / 1000) (show 0 < 10 by norm_num)
  have h2 := Nat.mod_lt (m / 100) (show 0 < 10 by norm_num)
  have h1 := Nat.mod_lt (m / 10) (show 0 < 10 by norm_num)
  have h0 := Nat.mod_lt m (show 0 < 10 by norm_num)
  rw [pad6, digitsToNat]
  simp only [List.foldl]
  rw [digitVal_digitChar _ h5, digitVal_digitChar _ h4, digitVal_digitChar _ h3,
    digitVal_digitChar _ h2, digitVal_digitChar _ h1, digitVal_digitChar _ h0]
  omega

lemma pad6_all_digits (m : Nat) : (pad6 m).all Char.isDigit = true := by
  have h5 := Nat.mod_lt (m / 100000) (show 0 < 10 by norm_num)
  have h4 := Nat.mod_lt (m / 10000) (show 0 < 10 by norm_num)
  have h3 := Nat.mod_lt (m / 1000) (show 0 < 10 by norm_num)
  have h2 := Nat.mod_lt (m / 100) (show 0 < 10 by norm_num)
  have h1 := Nat.mod_lt (m / 10) (show 0 < 10 by norm_num)
  have h0 := Nat.mod_lt m (show 0 < 10 by norm_num)
  simp [pad6, digitChar_isDigit _ h5, digitChar_isDigit _ h4, digitChar_isDigit _ h3,
    digitChar_isDigit _ h2, digitChar_isDigit _ h1, digitChar_isDigit _ h0]

lemma takeWhile_all_append {p : Char → Bool} :
    ∀ (ds r : List Char), ds.all p = true →
    (match r with | [] => True | c :: _ => p c = false) →
    (ds ++ r).takeWhile p = ds ∧ (ds ++ r).dropWhile p = r := by
  intro ds
  induction ds with
  | nil =>
    intro r _ hr
    cases r with
    | nil => simp
    | cons c rest =>
      simp only [List.nil_append]
      constructor
      · rw [List.takeWhile_cons, if_neg (by simp [hr])]
      · rw [List.dropWhile_cons, if_neg (by simp [hr])]
  | cons d ds ih =>
    intro r hall hr
    obtain ⟨hd, hrest⟩ := all_cons_split hall
    obtain ⟨iht, ihd⟩ := ih r hrest hr
    constructor
    · simp only [List.cons_append, List.takeWhile_cons, if_pos hd, iht]
    · simp only [List.cons_append, List.dropWhile_cons, if_pos hd, ihd]

end Yagni
namespace Yagni

lemma daysInMonth_le_31 (y m : Nat) : daysInMonth y m ≤ 31 := by
  rw [daysInMonth]
  split_ifs <;> omega

lemma parseFrac_not_dot {c : Char} {r : List Char} (h : ¬ c = '.') :
    parseFrac (c :: r) = some (0, c :: r) := by
  rw [parseFrac, if_neg h]

lemma pad6_length (m : Nat) : (pad6 m).length = 6 := by simp [pad6]

lemma parseFrac_pad6 (m : Nat) (r : List Char) (hm : m ≤ 999999)
    (hr : match r with | [] => True | c :: _ => c.isDigit = false) :
    parseFrac ('.' :: (pad6 m ++ r)) = some (m, r) := by
  obtain ⟨ht, hd⟩ := takeWhile_all_append (pad6 m) r (pad6_all_digits m) hr
  rw [parseFrac, if_pos rfl]
  simp only [ht, hd, pad6_length]
  rw [if_neg (by norm_num)]
  rw [List.take_of_length_le (by rw [pad6_length]), ljust6, pad6_length]
  simp [digitsToNat_pad6 m hm]

lemma eqUtc_offset_zero {t : Tz} (hu : t.eqUtc = true) : t.offsetMinutes = 0 := by
  cases t with
  | utc => rfl
  | fixedOffset m name =>
    simp [Tz.eqUtc] at hu
    simp [Tz.offsetMinutes, hu]
  | foreign n m => simp [Tz.eqUtc] at hu

lemma valid_bounds {d : PyDatetime} (h : d.valid = true) :
    d.year ≤ 9999 ∧ d.month ≤ 99 ∧ d.day ≤ 99 ∧ d.hour ≤ 99 ∧ d.minute ≤ 99 ∧
    d.second ≤ 99 ∧ d.microsecond ≤ 999999 := by
  rw [PyDatetime.valid] at h
  simp only [Bool.and_eq_true, decide_eq_true_eq] at h
  have hd31 := daysInMonth_le_31 d.year d.month
  omega

lemma valid_retz {d : PyDatetime} (h : d.valid = true) :
    PyDatetime.valid { d with tz := some Tz.utc } = true := by
  rw [PyDatetime.valid] at h ⊢
  simp only [Bool.and_eq_true, decide_eq_true_eq] at h ⊢
  obtain ⟨⟨⟨⟨⟨⟨⟨⟨⟨⟨h1, h2⟩, h3⟩, h4⟩, h5⟩, h6⟩, h7⟩, h8⟩, h9⟩, h10⟩, _⟩ := h
  refine ⟨⟨⟨⟨⟨⟨⟨⟨⟨⟨h1, h2⟩, h3⟩, h4⟩, h5⟩, h6⟩, h7⟩, h8⟩, h9⟩, h10⟩, rfl⟩

lemma parseTz_utcSuffix : parseTz ('+' :: '0' :: '0' :: ':' :: '0' :: '0' :: []) =
    some (some Tz.utc) := by decide

set_option maxHeartbeats 1600000 in
lemma parseDT_isoformat {d : PyDatetime} {t : Tz} (hv : d.valid = true) (ht : d.tz = some t)
    (hu : t.eqUtc = true) :
    parseDT (isoformat d) =
      some ⟨d.year, d.month, d.day, d.hour, d.minute, d.second, d.microsecond, some Tz.utc⟩ := by
  obtain ⟨hy, hmo, hdy, hh, hmi, hs, hmicro⟩ := valid_bounds hv
  have hoff := eqUtc_offset_zero hu
  have htz : (match d.tz with
      | none => ([] : List Char)
      | some t =>
        (if t.offsetMinutes < 0 then '-' else '+') ::
          (pad2 (t.offsetMinutes.natAbs / 60) ++ ':' :: pad2 (t.offsetMinutes.natAbs % 60))) =
      '+' :: '0' :: '0' :: ':' :: '0' :: '0' :: [] := by
    simp only [ht]
    rw [hoff]
    rfl
  have e1 : ∀ r, read4 (pad4 d.year ++ r) = some (d.year, r) := fun r => read4_pad4 _ r hy
  have e2 : ∀ r, readUpTo2 (pad2 d.month ++ r) = some (d.month, r) :=
    fun r => readUpTo2_pad2 _ r hmo
  have e3 : ∀ r, readUpTo2 (pad2 d.day ++ r) = some (d.day, r) :=
    fun r => readUpTo2_pad2 _ r hdy
  have e4 : ∀ r, readUpTo2 (pad2 d.hour ++ r) = some (d.hour, r) :=
    fun r => readUpTo2_pad2 _ r hh
  have e5 : ∀ r, readUpTo2 (pad2 d.minute ++ r) = some (d.minute, r) :=
    fun r => readUpTo2_pad2 _ r hmi
  have e6 : ∀ r, readUpTo2 (pad2 d.second ++ r) = some (d.second, r) :=
    fun r => readUpTo2_pad2 _ r hs
  by_cases hmc : d.microsecond = 0
  · rw [isoformat, htz, hmc]
    simp [parseDT, e1, e2, e3, e4, e5, e6, expect, expectSep, parseSecFrac,
      parseFrac_not_dot (by decide : Not ('+' = '.')), parseTz_utcSuffix, hmc]
  · have efrac : parseFrac ('.' :: (pad6 d.microsecond ++
        ('+' :: '0' :: '0' :: ':' :: '0' :: '0' :: []))) =
        some (d.microsecond, '+' :: '0' :: '0' :: ':' :: '0' :: '0' :: []) :=
      parseFrac_pad6 _ _ hmicro (by decide)
    rw [isoformat, htz, if_neg hmc]
    simp [parseDT, e1, e2, e3, e4, e5, e6, expect, expectSep, parseSecFrac, efrac,
      parseTz_utcSuffix]

lemma parse_isoformat {d : PyDatetime} {t : Tz} (hv : d.valid = true) (ht : d.tz = some t)
    (hu : t.eqUtc = true) :
    parseDatetimeStr (isoformat d) = Except.ok { d with tz := some Tz.utc } := by
  have hrec : (PyDatetime.mk d.year d.month d.day d.hour d.minute d.second d.microsecond
      (some Tz.utc)) = { d with tz := some Tz.utc } := rfl
  have hdtp : parseDTPy (isoformat d) =
      some ⟨d.year, d.month, d.day, d.hour, d.minute, d.second, d.microsecond, some Tz.utc⟩ := by
    simp only [parseDTPy, parseDT_isoformat hv ht hu]
  simp only [parseDatetimeStr, hdtp, hrec]
  rw [if_pos (valid_retz hv)]

lemma utcValidate_ok {d v : PyDatetime} (h : utcValidate d = Except.ok v) :
    v = d ∧ ∃ t, d.tz = some t ∧ t.eqUtc = true := by
  rw [utcValidate] at h
  cases htz : d.tz with
  | none => simp only [htz] at h; cases h
  | some t =>
    simp only [htz] at h
    by_cases he : t.eqUtc = true
    · rw [if_pos he] at h
      cases h
      exact ⟨rfl, t, rfl, he⟩
    · rw [if_neg he] at h
      cases h

lemma parseDatetimeStr_ok_valid {s : List Char} {d : PyDatetime}
    (h : parseDatetimeStr s = Except.ok d) : d.valid = true := by
  rw [parseDatetimeStr] at h
  cases hp : parseDTPy s with
  | none => simp only [hp] at h; cases h
  | some d0 =>
    simp only [hp] at h
    by_cases hv : d0.valid = true
    · rw [if_pos hv] at h
      cases h
      exact hv
    · rw [if_neg hv] at h
      cases h

lemma dtEq_retz {d : PyDatetime} {t : Tz} (ht : d.tz = some t) (hu : t.eqUtc = true) :
    dtEq { d with tz := some Tz.utc } d = true := by
  simp only [dtEq, ht, eqUtc_offset_zero hu]
  exact beq_self_eq_true _

lemma utcMake_ok_inv {i : DtInput} {v : PyDatetime} (h : utcMake i = Except.ok v) :
    parse_datetime i = Except.ok v ∧ ∃ t, v.tz = some t ∧ t.eqUtc = true := by
  rw [utcMake] at h
  cases hp : parse_datetime i with
  | error e => simp only [hp] at h; cases h
  | ok d0 =>
    simp only [hp] at h
    simp only [Except.bind] at h
    obtain ⟨hv, t, htz, hu⟩ := utcValidate_ok h
    subst hv
    exact ⟨rfl, t, htz, hu⟩

lemma utc_idem (i : DtInput) (v : PyDatetime) (hvi : i.validInput)
    (h : utcMake i = Except.ok v) :
    ∃ v2, utcMake (DtInput.fromString (isoformat v)) = Except.ok v2 ∧ dtEq v2 v = true := by
  obtain ⟨hp, t, htz, hu⟩ := utcMake_ok_inv h
  have hval : v.valid = true := by
    cases i with
    | fromDatetime d =>
      rw [parse_datetime] at hp
      cases hp
      exact hvi
    | fromString s => exact parseDatetimeStr_ok_valid hp
  refine ⟨{ v with tz := some Tz.utc }, ?_, dtEq_retz htz hu⟩
  rw [utcMake, parse_datetime, parse_isoformat hval htz hu]
  simp only [Except.bind, utcValidate]
  rfl

lemma firstIdx_self_exact {vals : List (List Char)} {i : Nat} (hi : i < vals.length)
    (hnd : vals.Nodup) : firstIdx (fun v => v == vals[i]) vals = some i := by
  refine firstIdx_of_unique hi ?_ ?_
  · exact beq_self_eq_true _
  intro j hj hpj
  have hjeq : vals[j] = vals[i] := by
    have := hpj
    simpa using this
  exact (List.Nodup.getElem_inj_iff hnd).mp hjeq

lemma enumResolve_lt {vals : List (List Char)} {s : List Char} {i : Nat}
    (h : enumResolve vals s = some i) : i < vals.length := by
  rw [enumResolve] at h
  cases hf : firstIdx (fun v => v == s) vals with
  | some j =>
    rw [hf] at h
    cases h
    obtain ⟨hj, _⟩ := firstIdx_eq_some_facts hf
    exact hj
  | none =>
    rw [hf] at h
    obtain ⟨hj, _⟩ := firstIdx_eq_some_facts h
    exact hj

lemma enumResolve_self {vals : List (List Char)} {i : Nat} (hi : i < vals.length)
    (hnd : vals.Nodup) : enumResolve vals (vals[i]) = some i := by
  rw [enumResolve, firstIdx_self_exact hi hnd]

lemma removeDashes_of_digits {v : List Char} (h : v.all Char.isDigit = true) :
    removeDashes v = v := by
  rw [removeDashes, List.filter_eq_self]
  intro a ha
  exact decide_eq_true (digit_ne_dash ((List.all_eq_true.mp h) a ha))

lemma ssnMake_error_of_not_match {s : List Char} (h : ¬ ssnRegexMatch s = true) :
    ssnMake s = Except.error StrError.regexError := by
  rw [ssnMake_eq, if_neg h]

lemma dashShape_split {s : List Char} (h : dashInsertedNineDigits s = true) :
    s.all digitOrDash = true ∧
    (match s.head? with | some c => c.isDigit | none => false) = true ∧
    (match s.getLast? with | some c => c.isDigit | none => false) = true ∧
    noAdjacentDashes s = true ∧ s.countP Char.isDigit = 9 := by
  rw [dashInsertedNineDigits] at h
  simp only [Bool.and_eq_true, beq_iff_eq] at h
  obtain ⟨⟨⟨⟨hall, hhead⟩, hlast⟩, hadj⟩, hcount⟩ := h
  exact ⟨hall, hhead, hlast, hadj, hcount⟩

lemma pyDollarAnchored_iff {core : List Char → Bool} {s : List Char} :
    pyDollarAnchored core s = true ↔
      core s = true ∨ (s.getLast? = some '\n' ∧ core s.dropLast = true) := by
  simp [pyDollarAnchored, Bool.or_eq_true, Bool.and_eq_true]

lemma eq_dropLast_append_of_getLast {s : List Char} {c : Char} (h : s.getLast? = some c) :
    s = s.dropLast ++ [c] := by
  have hne : s ≠ [] := by intro he; subst he; simp at h
  rw [List.getLast?_eq_getLast s hne] at h
  injection h with h2
  rw [← h2]
  exact (List.dropLast_append_getLast hne).symm

lemma removeDashes_append (a b : List Char) :
    removeDashes (a ++ b) = removeDashes a ++ removeDashes b := by
  simp [removeDashes, List.filter_append]

lemma removeDashes_newline (s0 : List Char) :
    removeDashes (s0 ++ ['\n']) = removeDashes s0 ++ ['\n'] := by
  rw [removeDashes_append]
  rfl

lemma ssn_stored_facts {s : List Char} (h : ssnRegexMatch s = true) :
    (nineDigits (removeDashes s) = true ∨
      ((removeDashes s).getLast? = some '\n' ∧
        nineDigits ((removeDashes s).dropLast) = true)) ∧
    ssnRegexMatch (removeDashes s) = true := by
  rw [ssnRegexMatch, pyDollarAnchored_iff] at h
  rcases h with h | ⟨hl, hc⟩
  · have hn := removeDashes_all_digits h
    refine ⟨Or.inl hn, ?_⟩
    rw [ssnRegexMatch, pyDollarAnchored_iff]
    exact Or.inl (ssnRegexCore_of_nineDigits hn)
  · have hn := removeDashes_all_digits hc
    have hrw : removeDashes s = removeDashes s.dropLast ++ ['\n'] := by
      conv_lhs => rw [eq_dropLast_append_of_getLast hl]
      exact removeDashes_newline _
    refine ⟨Or.inr ⟨?_, ?_⟩, ?_⟩
    · rw [hrw]; exact List.getLast?_concat _
    · rw [hrw, List.dropLast_concat]; exact hn
    · rw [ssnRegexMatch, pyDollarAnchored_iff]
      refine Or.inr ⟨?_, ?_⟩
      · rw [hrw]; exact List.getLast?_concat _
      · rw [hrw, List.dropLast_concat]
        exact ssnRegexCore_of_nineDigits hn

lemma ssnMatch_shape_cases {s : List Char} (h : ssnRegexMatch s = true) :
    dashInsertedNineDigits s = true ∨
      (s.getLast? = some '\n' ∧ dashInsertedNineDigits s.dropLast = true) := by
  rw [ssnRegexMatch, pyDollarAnchored_iff] at h
  rcases h with h | ⟨hl, hc⟩
  · exact Or.inl ((ssnRegexCore_iff_shape s).mp h)
  · exact Or.inr ⟨hl, (ssnRegexCore_iff_shape _).mp hc⟩

/-! ## The claims -/

/-- Claim C1 (corrected): for `SSN` the regex predicate is evaluated
against the raw input — which may still contain dashes, the pattern
allowing single dashes between digits — and the dash-removal
normalization runs after predicate acceptance; the predicate is not
evaluated against the dash-free normalized value. The stored value is
the dash-free form of the raw input: nine decimal digits, or — Python's
`$` tolerating one trailing newline — nine decimal digits followed by a
single newline. -/
theorem C1_regex_on_raw_input :
    (∀ s v, ssnMake s = Except.ok v ↔ ssnRegexMatch s = true ∧ v = removeDashes s) ∧
    (∀ s v, ssnMake s = Except.ok v →
      nineDigits v = true ∨
        (v.getLast? = some '\n' ∧ nineDigits v.dropLast = true)) := by
  have key : ∀ s v, ssnMake s = Except.ok v ↔ ssnRegexMatch s = true ∧ v = removeDashes s := by
    intro s v
    rw [ssnMake_eq]
    by_cases h : ssnRegexMatch s = true
    · rw [if_pos h]
      constructor
      · intro he; cases he; exact ⟨h, rfl⟩
      · intro ⟨_, hv⟩; rw [hv]
    · rw [if_neg h]
      constructor
      · intro he; cases he
      · intro ⟨hr, _⟩; exact absurd hr h
  refine ⟨key, ?_⟩
  intro s v h
  obtain ⟨hr, hv⟩ := (key s v).mp h
  rw [hv]
  exact (ssn_stored_facts hr).1

/-- Claim C1, counterexample to the claim as stated: the input
`"-123456789"` normalizes (dash-free) to exactly nine digits, so under
the claimed order it would be accepted, yet the code rejects it because
the regex runs on the raw input and forbids a leading dash. -/
theorem C1_counterexample :
    ssnSpecOrderAccept ("-123456789".data) = true ∧
    ssnMake ("-123456789".data) = Except.error StrError.regexError := by decide

/-- Claim C2 (confirmed): for every raw input accepted by a validating
constructor (`SSN`, `MBI`, `CaseInsensitiveEnum`, `UTCDatetime`),
constructing again from the rendered form yields an equal value. For the
string types the rendered form is the stored payload itself; for the
enum it is the canonical value of the resolved member (member values
being distinct, as Python enums guarantee); for `UTCDatetime` it is
`isoformat`, and equality is Python datetime equality. -/
theorem C2_idempotence :
    (∀ s v, ssnMake s = Except.ok v → ssnMake v = Except.ok v) ∧
    (∀ s v, mbiMake s = Except.ok v → mbiMake v = Except.ok v) ∧
    (∀ (vals : List (List Char)) (s : List Char) (i : Nat), vals.Nodup →
      enumResolve vals s = some i → enumResolve vals (enumRender vals i) = some i) ∧
    (∀ (i : DtInput) (v : PyDatetime), i.validInput → utcMake i = Except.ok v →
      ∃ v2, utcMake (DtInput.fromString (isoformat v)) = Except.ok v2 ∧ dtEq v2 v = true) := by
  refine ⟨?_, ?_, ?_, utc_idem⟩
  · intro s v h
    rw [ssnMake_eq] at h
    by_cases hr : ssnRegexMatch s = true
    · rw [if_pos hr] at h
      cases h
      rw [ssnMake_eq, if_pos (ssn_stored_facts hr).2, removeDashes_idem]
    · rw [if_neg hr] at h
      cases h
  · intro s v h
    rw [mbiMake_eq] at h
    by_cases hr : mbiRegexMatch (pyUpper s) = true
    · rw [if_pos hr] at h
      cases h
      rw [mbiMake_eq, pyUpper_idem, if_pos hr]
    · rw [if_neg hr] at h
      cases h
  · intro vals s i hnd hres
    have hi := enumResolve_lt hres
    rw [enumRender, List.getD_eq_getElem vals [] hi]
    exact enumResolve_self hi hnd

/-- Claim C2, witness: the idempotence theorem applied to one accepted
input of each of the four constructors. -/
theorem C2_idempotence_witness :
    ssnMake ("123456789".data) = Except.ok ("123456789".data) ∧
    mbiMake ("1AX0Y67DW34".data) = Except.ok ("1AX0Y67DW34".data) ∧
    enumResolve ["male".data, "female".data]
      (enumRender ["male".data, "female".data] 0) = some 0 ∧
    (∃ v2, utcMake (DtInput.fromString
        (isoformat ⟨1991, 8, 24, 10, 0, 0, 0, some Tz.utc⟩)) = Except.ok v2 ∧
      dtEq v2 ⟨1991, 8, 24, 10, 0, 0, 0, some Tz.utc⟩ = true) :=
  ⟨C2_idempotence.1 ("123-45-6789".data) _ (by decide),
    C2_idempotence.2.1 ("1ax0Y67Dw34".data) _ (by decide),
    C2_idempotence.2.2.1 _ ("MaLe".data) 0 (by decide) (by decide),
    C2_idempotence.2.2.2 (DtInput.fromString ("1991-08-24T10:00:00+00:00".data)) _
      trivial (by decide)⟩

/-- Claim C3 (confirmed): for an enum whose canonical strings are
distinct case-insensitively (the spec assumes canonical strings unique
per type), resolving any case variant of a member's canonical string
returns that member; resolving a string that is not case-insensitively
equal to any canonical string fails (the `NoSuchMember` outcome); in
particular whitespace-padded canonical strings fail, no trimming being
applied. -/
theorem C3_case_insensitive_resolution :
    (∀ (vals : List (List Char)) (i : Nat) (hi : i < vals.length) (s : List Char),
      (vals.map pyLower).Nodup → pyLower s = pyLower vals[i] →
      enumResolve vals s = some i) ∧
    (∀ (vals : List (List Char)) (s : List Char),
      (∀ v ∈ vals, ¬ pyLower v = pyLower s) → enumResolve vals s = none) ∧
    enumResolve ["male".data, "female".data] (" male".data) = none ∧
    enumResolve ["male".data, "female".data] ("male ".data) = none := by
  refine ⟨?_, ?_, by decide, by decide⟩
  · intro vals i hi s hnd hls
    have hmaplen : (vals.map pyLower).length = vals.length := List.length_map _ _
    have hi2 : i < (vals.map pyLower).length := by omega
    rw [enumResolve]
    cases hf : firstIdx (fun v => v == s) vals with
    | some j =>
      obtain ⟨hj, hpj⟩ := firstIdx_eq_some_facts hf
      have hj2 : j < (vals.map pyLower).length := by omega
      have hveq : vals[j] = s := by simpa using hpj
      have hmap : (vals.map pyLower)[j] = (vals.map pyLower)[i] := by
        simp only [List.getElem_map]
        rw [hveq, hls]
      have hji : j = i := (List.Nodup.getElem_inj_iff hnd).mp hmap
      rw [hji]
    | none =>
      refine firstIdx_of_unique hi ?_ ?_
      · simp only [beq_iff_eq]
        exact hls.symm
      · intro j hj hpj
        have hj2 : j < (vals.map pyLower).length := by omega
        have hpl : pyLower vals[j] = pyLower s := by simpa using hpj
        have hmap : (vals.map pyLower)[j] = (vals.map pyLower)[i] := by
          simp only [List.getElem_map]
          rw [hpl, hls]
        exact (List.Nodup.getElem_inj_iff hnd).mp hmap
  · intro vals s h
    rw [enumResolve]
    have h1 : firstIdx (fun v => v == s) vals = none :=
      (firstIdx_eq_none_iff _ _).mpr fun v hv =>
        beq_eq_false_iff_ne.mpr (fun he => h v hv (by rw [he]))
    rw [h1]
    exact (firstIdx_eq_none_iff _ _).mpr fun v hv =>
      beq_eq_false_iff_ne.mpr (h v hv)

/-- Claim C3, witness: the resolution theorem applied to the two-member
gender enum of the doctests, at a mixed-case variant and at a
non-member string. -/
theorem C3_witness :
    enumResolve ["male".data, "female".data] ("mAlE".data) = some 0 ∧
    enumResolve ["male".data, "female".data] ("helicopter".data) = none :=
  ⟨C3_case_insensitive_resolution.1 ["male".data, "female".data] 0 (by decide)
      ("mAlE".data) (by decide) (by decide),
    C3_case_insensitive_resolution.2.1 ["male".data, "female".data] ("helicopter".data)
      (by decide)⟩

/-- Claim C4 (confirmed): the naive string fails with the naive-timestamp
error, the `+03:00` string fails with the distinct non-UTC error, and the
`+00:00` string is accepted and renders back to exactly the same string
with the explicit offset. -/
theorem C4_utc_enforcement :
    utcMake (DtInput.fromString ("1991-08-24T10:00:00".data)) =
      Except.error DtError.naiveError ∧
    utcMake (DtInput.fromString ("1991-08-24T10:00:00+03:00".data)) =
      Except.error DtError.nonUtcError ∧
    utcMake (DtInput.fromString ("1991-08-24T10:00:00+00:00".data)) =
      Except.ok ⟨1991, 8, 24, 10, 0, 0, 0, some Tz.utc⟩ ∧
    isoformat ⟨1991, 8, 24, 10, 0, 0, 0, some Tz.utc⟩ = "1991-08-24T10:00:00+00:00".data ∧
    ¬ (DtError.naiveError = DtError.nonUtcError) := by decide

/-- Claim C5 (corrected): construction fails with the non-UTC error — a
distinct error from the naive one — exactly when the value carries a
`tzinfo` that does not compare equal to `timezone.utc` under Python
equality; since `datetime.timezone` equality compares offsets only, a
zero-offset timezone labeled differently compares equal and is
accepted, while a zero-offset `tzinfo` of a different class (pytz's
UTC) is rejected. -/
theorem C5_nonutc_by_equality :
    (∀ (i : DtInput) (d : PyDatetime) (t : Tz), parse_datetime i = Except.ok d →
      d.tz = some t → t.eqUtc = false → utcMake i = Except.error DtError.nonUtcError) ∧
    (∀ (d : PyDatetime) (t : Tz), d.tz = some t → t.eqUtc = true →
      utcMake (DtInput.fromDatetime d) = Except.ok d) ∧
    ¬ (DtError.nonUtcError = DtError.naiveError) := by
  refine ⟨?_, ?_, by decide⟩
  · intro i d t hp ht he
    rw [utcMake, hp]
    simp only [Except.bind, utcValidate, ht, he]
    rfl
  · intro d t ht hu
    rw [utcMake, parse_datetime]
    simp only [Except.bind, utcValidate, ht, hu]
    rfl

/-- Claim C5, counterexample to the claim as stated: a datetime carrying
`timezone(timedelta(0), "FOO")` — zero magnitude, labeled as a different
timezone object than the canonical `timezone.utc` — is accepted, where
the claim requires every such input to fail with the non-UTC error. -/
theorem C5_counterexample :
    ¬ (some (Tz.fixedOffset 0 (some ("FOO".data))) = some Tz.utc) ∧
    utcMake (DtInput.fromDatetime ⟨1991, 8, 24, 10, 0, 0, 0,
      some (Tz.fixedOffset 0 (some ("FOO".data)))⟩) =
      Except.ok ⟨1991, 8, 24, 10, 0, 0, 0, some (Tz.fixedOffset 0 (some ("FOO".data)))⟩ := by
  decide

/-- Claim C5, witness: the amended theorem applied to a zero-offset
foreign `tzinfo` (pytz-style UTC object, rejected with the non-UTC
error) and to a zero-offset labeled `datetime.timezone` (accepted). -/
theorem C5_witness :
    utcMake (DtInput.fromDatetime ⟨1991, 8, 24, 10, 0, 0, 0,
      some (Tz.foreign ("UTC".data) 0)⟩) = Except.error DtError.nonUtcError ∧
    utcMake (DtInput.fromDatetime ⟨1991, 8, 24, 10, 0, 0, 0,
      some (Tz.fixedOffset 0 (some ("EST".data)))⟩) =
      Except.ok ⟨1991, 8, 24, 10, 0, 0, 0, some (Tz.fixedOffset 0 (some ("EST".data)))⟩ :=
  ⟨C5_nonutc_by_equality.1 _ _ (Tz.foreign ("UTC".data) 0) rfl rfl rfl,
    C5_nonutc_by_equality.2.1 _ (Tz.fixedOffset 0 (some ("EST".data))) rfl rfl⟩

/-- Claim C6 (corrected): a string is accepted as an `MBI` if and only
if the upper-cased input — or, Python's `$` tolerating one trailing
newline, the upper-cased input minus a single trailing newline — has
length 11 with digits at positions 1, 4, 7, 10, 11 (position 1 in 1-9),
non-ambiguous letters at positions 2, 5, 8, 9, and at positions 3 and 6
either a digit or a non-ambiguous letter; the claim required letters at
positions 3 and 6 and did not allow the trailing newline. -/
theorem C6_accept_iff :
    ∀ s, (∃ v, mbiMake s = Except.ok v) ↔
      (mbiShape (pyUpper s) = true ∨
        ((pyUpper s).getLast? = some '\n' ∧ mbiShape ((pyUpper s).dropLast) = true)) := by
  intro s
  have hwrap : mbiRegexMatch (pyUpper s) = true ↔
      (mbiShape (pyUpper s) = true ∨
        ((pyUpper s).getLast? = some '\n' ∧ mbiShape ((pyUpper s).dropLast) = true)) := by
    rw [mbiRegexMatch, pyDollarAnchored_iff, mbiRegexCore_eq_mbiShape,
      mbiRegexCore_eq_mbiShape]
  rw [← hwrap, mbiMake_eq]
  by_cases h : mbiRegexMatch (pyUpper s) = true
  · rw [if_pos h]
    exact ⟨fun _ => h, fun _ => ⟨pyUpper s, rfl⟩⟩
  · rw [if_neg h]
    constructor
    · intro ⟨v, hv⟩; cases hv
    · intro hr; exact absurd hr h

/-- Claim C6, counterexample to the claim as stated: `"4C56DE7FG00"` (a
doctest example of the source) carries the digit 5 at position 3, so the
claim's shape — a letter at every position other than 1, 4, 7, 10, 11 —
rejects it, yet the code accepts it; and `"1ax0Y67Dw34"` with a trailing
newline is accepted (Python's `$` matches before it) although its
upper-cased form has length 12, not 11. -/
theorem C6_counterexample :
    mbiMake ("4C56DE7FG00".data) = Except.ok ("4C56DE7FG00".data) ∧
    mbiSpecShape (pyUpper ("4C56DE7FG00".data)) = false ∧
    mbiMake ("1ax0Y67Dw34\n".data) = Except.ok ("1AX0Y67DW34\n".data) ∧
    ¬ (pyUpper ("1ax0Y67Dw34\n".data)).length = 11 := by decide

/-- Claim C7 (confirmed): `"1ax0Y67Dw34"` is accepted and renders
upper-cased as `"1AX0Y67DW34"`; `"0AX0Y67DW34"` fails on the leading
zero; variants with an excluded ambiguous letter in a letter position
fail, case-insensitively. -/
theorem C7_positional_code_examples :
    mbiMake ("1ax0Y67Dw34".data) = Except.ok ("1AX0Y67DW34".data) ∧
    mbiMake ("0AX0Y67DW34".data) = Except.error StrError.regexError ∧
    mbiMake ("1SX0Y67DW34".data) = Except.error StrError.regexError ∧
    mbiMake ("1sX0Y67DW34".data) = Except.error StrError.regexError := by decide

/-- Claim C8 (corrected): every string of nine digits with zero or more
single dashes inserted between digits is accepted and stored dash-free
(in particular the two dashed doctest examples); a character that is
neither digit nor dash is rejected except as a single trailing newline
(which Python's `$` tolerates and which is then stored); a dash-free
digit count other than nine is rejected up to the same trailing-newline
tolerance; a leading or trailing dash is always rejected. -/
theorem C8_dash_tolerant_identifier :
    (∀ s, dashInsertedNineDigits s = true → ssnMake s = Except.ok (removeDashes s)) ∧
    ssnMake ("123-45-6789".data) = Except.ok ("123456789".data) ∧
    ssnMake ("12-3-4-5-6-7-8-9".data) = Except.ok ("123456789".data) ∧
    (∀ s c, c ∈ s → digitOrDash c = false → ¬ c = '\n' →
      ssnMake s = Except.error StrError.regexError) ∧
    (∀ s c, c ∈ s.dropLast → digitOrDash c = false →
      ssnMake s = Except.error StrError.regexError) ∧
    (∀ s, ¬ (removeDashes s).length = 9 → ¬ (removeDashes s.dropLast).length = 9 →
      ssnMake s = Except.error StrError.regexError) ∧
    (∀ s, s.head? = some '-' ∨ s.getLast? = some '-' →
      ssnMake s = Except.error StrError.regexError) := by
  refine ⟨?_, by decide, by decide, ?_, ?_, ?_, ?_⟩
  · intro s h
    have hcore : ssnRegexCore s = true := (ssnRegexCore_iff_shape s).mpr h
    rw [ssnMake_eq,
      if_pos (by rw [ssnRegexMatch, pyDollarAnchored_iff]; exact Or.inl hcore)]
  · intro s c hc hcd hcn
    apply ssnMake_error_of_not_match
    intro hr
    rcases ssnMatch_shape_cases hr with hsh | ⟨hl, hsh⟩
    · obtain ⟨hall, _, _, _, _⟩ := dashShape_split hsh
      exact absurd ((List.all_eq_true.mp hall) c hc) (by rw [hcd]; exact Bool.false_ne_true)
    · obtain ⟨hall, _, _, _, _⟩ := dashShape_split hsh
      have hc2 : c ∈ s.dropLast := by
        have hsplit := eq_dropLast_append_of_getLast hl
        rw [hsplit] at hc
        rcases List.mem_append.mp hc with h1 | h1
        · exact h1
        · simp at h1
          exact absurd h1 hcn
      exact absurd ((List.all_eq_true.mp hall) c hc2) (by rw [hcd]; exact Bool.false_ne_true)
  · intro s c hc hcd
    apply ssnMake_error_of_not_match
    intro hr
    rcases ssnMatch_shape_cases hr with hsh | ⟨hl, hsh⟩
    · obtain ⟨hall, _, _, _, _⟩ := dashShape_split hsh
      have hcs : c ∈ s := List.Sublist.mem hc (List.dropLast_sublist s)
      exact absurd ((List.all_eq_true.mp hall) c hcs) (by rw [hcd]; exact Bool.false_ne_true)
    · obtain ⟨hall, _, _, _, _⟩ := dashShape_split hsh
      exact absurd ((List.all_eq_true.mp hall) c hc) (by rw [hcd]; exact Bool.false_ne_true)
  · intro s h1 h2
    apply ssnMake_error_of_not_match
    intro hr
    rcases ssnMatch_shape_cases hr with hsh | ⟨hl, hsh⟩
    · obtain ⟨hall, _, _, _, hcount⟩ := dashShape_split hsh
      rw [countP_eq_removeDashes_length s hall] at hcount
      exact h1 hcount
    · obtain ⟨hall, _, _, _, hcount⟩ := dashShape_split hsh
      rw [countP_eq_removeDashes_length _ hall] at hcount
      exact h2 hcount
  · intro s hd
    apply ssnMake_error_of_not_match
    intro hr
    rcases ssnMatch_shape_cases hr with hsh | ⟨hl, hsh⟩
    · obtain ⟨_, hhead, hlast, _, _⟩ := dashShape_split hsh
      rcases hd with hd | hd
      · rw [hd] at hhead
        exact absurd hhead (by decide)
      · rw [hd] at hlast
        exact absurd hlast (by decide)
    · obtain ⟨_, hhead, hlast, _, _⟩ := dashShape_split hsh
      rcases hd with hd | hd
      · have hsplit := eq_dropLast_append_of_getLast hl
        cases hdl : s.dropLast with
        | nil =>
          rw [hdl] at hsplit
          rw [hsplit] at hd
          exact absurd hd (by decide)
        | cons b t =>
          have hh : s.head? = some b := by
            rw [hsplit, hdl]
            rfl
          rw [hd] at hh
          injection hh with hb
          rw [hdl] at hhead
          simp only [List.head?] at hhead
          rw [← hb] at hhead
          exact absurd hhead (by decide)
      · rw [hd] at hl
        injection hl with hl2
        exact absurd hl2 (by decide)

/-- Claim C8, counterexample to the claim as stated: `"123456789"` with
a trailing newline is accepted and stored with the newline — Python's
`$` matches just before it — although the newline is neither digit nor
dash and the dash-free length is ten, both of which the claim says must
be rejected. -/
theorem C8_counterexample :
    ssnMake ("123456789\n".data) = Except.ok ("123456789\n".data) ∧
    '\n' ∈ ("123456789\n".data) ∧ digitOrDash '\n' = false ∧
    ¬ (removeDashes ("123456789\n".data)).length = 9 := by decide

/-- Claim C8, witness: the acceptance part at a fully dashed input and
the rejection parts at a bad character, an interior newline, a wrong
digit count and a leading dash. -/
theorem C8_witness :
    ssnMake ("1-2-3-4-5-6-7-8-9".data) = Except.ok ("123456789".data) ∧
    ssnMake ("12a456789".data) = Except.error StrError.regexError ∧
    ssnMake ("1\n23456789".data) = Except.error StrError.regexError ∧
    ssnMake ("1234".data) = Except.error StrError.regexError ∧
    ssnMake ("-123456789-".data) = Except.error StrError.regexError := by
  refine ⟨?_, ?_, ?_, ?_, ?_⟩
  · have := C8_dash_tolerant_identifier.1 ("1-2-3-4-5-6-7-8-9".data) (by decide)
    simpa using this
  · exact C8_dash_tolerant_identifier.2.2.2.1 ("12a456789".data) 'a'
      (by decide) (by decide) (by decide)
  · exact C8_dash_tolerant_identifier.2.2.2.2.1 ("1\n23456789".data) '\n'
      (by decide) (by decide)
  · exact C8_dash_tolerant_identifier.2.2.2.2.2.1 ("1234".data) (by decide) (by decide)
  · exact C8_dash_tolerant_identifier.2.2.2.2.2.2 ("-123456789-".data) (Or.inl (by decide))

/-- Claim C9 (corrected): the eight-digit input `"12345678"` fails with
the pattern (regex) constraint violation, not the length one — `SSN`
declares no minimum length, so the regex reports the mismatch; the two
error kinds are distinct in the pipeline. -/
theorem C9_pattern_not_length :
    ssnMake ("12345678".data) = Except.error StrError.regexError ∧
    ¬ (StrError.regexError = StrError.minLengthError) := by decide

/-- Claim C9, counterexample to the claim as stated: the failure on
`"12345678"` is not the minimum-length violation the claim names. -/
theorem C9_counterexample :
    ¬ (ssnMake ("12345678".data) = Except.error StrError.minLengthError) := by decide

/-- Claim C10 (confirmed): when the input string is not an exact match
of any member value, resolution is the definition-order scan returning
the first member whose lower-cased canonical value equals the
lower-cased input; an enum whose values differ only by case is legal,
its non-exact variants resolve to the earlier member, and an exact match
still returns the exactly-matching member. -/
theorem C10_definition_order_scan :
    (∀ (vals : List (List Char)) (s : List Char), (∀ v ∈ vals, ¬ v = s) →
      enumResolve vals s = firstIdx (fun v => pyLower v == pyLower s) vals) ∧
    enumResolve ["male".data, "MALE".data] ("mAlE".data) = some 0 ∧
    enumResolve ["male".data, "MALE".data] ("MALE".data) = some 1 := by
  refine ⟨?_, by decide, by decide⟩
  intro vals s h
  rw [enumResolve]
  have hnone : firstIdx (fun v => v == s) vals = none :=
    (firstIdx_eq_none_iff _ _).mpr (fun v hv => beq_eq_false_iff_ne.mpr (h v hv))
  rw [hnone]

/-- Claim C10, witness: the scan theorem applied to the gender enum at a
mixed-case non-exact input. -/
theorem C10_witness :
    enumResolve ["male".data, "female".data] ("FeMaLe".data) =
      firstIdx (fun v => pyLower v == pyLower ("FeMaLe".data)) ["male".data, "female".data] :=
  C10_definition_order_scan.1 _ _ (by decide)

end Yagni
